import Mathlib

/-!
Verification of the brainfuck interpreter (`src/main.rs`).

The embedding translates the interpreter's core into Lean:
* `Command` mirrors the Rust `Command` enum (with the `Unknown` default
  produced by `FromPrimitive` for unrecognized bytes).
* `decode` mirrors `Command::from(u8)` (the `num_enum` discriminant mapping).
* `parse` mirrors the `filter_map` preprocessing pass in `main`.
* `ProgramState` mirrors the Rust struct; `step` mirrors
  `ProgramState::step`.  Machine integers are modelled as `Nat` with
  explicit reduction modulo `2^64` (usize) and `256` (u8), matching the
  wrapping behavior of the compiled arithmetic; a Rust panic (out-of-bounds
  slice index, or the usize decrement at 0, whose wrapped index
  `2^64 - 1` exceeds every representable slice length) is modelled as
  `none`; a returned `Err` (the `?` on the stdout write) is
  `Except.error`.
* `run` mirrors `Program::run`, with a fuel bound on the unbounded Rust
  loop, an oracle list `woks` saying whether each step's stdout write
  succeeds, an input byte list for stdin, and observational accumulators
  for emitted bytes and the index of each executed instruction.
-/

/-- Size of the program memory in bytes (`PROGRAM_MEMORY_SIZE` in the source). -/
def PROGRAM_MEMORY_SIZE : Nat := 8

/-- Modulus of Rust's `usize` arithmetic on a 64-bit target. -/
def USIZE_MOD : Nat := 2 ^ 64

/-- A single instruction of code (the Rust `Command` enum). -/
inductive Command where
  /-- Unknown command - these are ignored. -/
  | Unknown
  /-- Symbol `>`: increment the data pointer by one. -/
  | IncrementPointer
  /-- Symbol `<`: decrement the data pointer by one. -/
  | DecrementPointer
  /-- Symbol `+`: increment the byte at the data pointer by one. -/
  | IncrementValue
  /-- Symbol `-`: decrement the byte at the data pointer by one. -/
  | DecrementValue
  /-- Symbol `.`: output the byte at the data pointer. -/
  | OutputValue
  /-- Symbol `,`: accept one byte of input into the byte at the data pointer. -/
  | InputValue
  /-- Symbol `[`: jump past the matching `]` when the current byte is zero. -/
  | JumpForward
  /-- Symbol `]`: jump back past the matching `[` when the current byte is nonzero. -/
  | JumpBackward
deriving DecidableEq, Repr

/-- Decoder `Command::from(b)` via `num_enum::FromPrimitive`: the variant whose
discriminant (the ASCII code of its symbol) equals `b`, defaulting to
`Unknown`. -/
def decode (b : Nat) : Command :=
  if b = 62 then Command.IncrementPointer
  else if b = 60 then Command.DecrementPointer
  else if b = 43 then Command.IncrementValue
  else if b = 45 then Command.DecrementValue
  else if b = 46 then Command.OutputValue
  else if b = 44 then Command.InputValue
  else if b = 91 then Command.JumpForward
  else if b = 93 then Command.JumpBackward
  else Command.Unknown

/-- The preprocessing pass in `main`: map every raw byte through `decode`
and discard each `Unknown` result (`filter_map`). -/
def parse (bytes : List Nat) : List Command :=
  bytes.filterMap (fun b =>
    match decode b with
    | Command.Unknown => none
    | c => some c)

/-- Current state of the program (the Rust `ProgramState` struct). -/
structure ProgramState where
  /-- Pointer to the currently-active memory address. -/
  data_ptr : Nat
  /-- Pointer to the instruction currently being executed. -/
  instruct_ptr : Nat
  /-- Current state of the program memory. -/
  memory : List Nat
deriving DecidableEq, Repr

/-- Constructor `ProgramState::new()`: both pointers zero, memory zeroed. -/
def ProgramState.new : ProgramState :=
  { data_ptr := 0, instruct_ptr := 0, memory := List.replicate PROGRAM_MEMORY_SIZE 0 }

/-- Accessor `get_value`: `self.memory[self.data_ptr]`; `none` models the Rust
index panic when `data_ptr` is out of bounds. -/
def getValue (st : ProgramState) : Option Nat :=
  st.memory[st.data_ptr]?

/-- Counter update of the forward scan's `match code[instruct_ptr]` arm:
a further open bracket increments the depth, a close bracket decrements
it, everything else leaves it unchanged. -/
def updF (c : Command) (counter : Nat) : Nat :=
  match c with
  | Command.JumpForward => counter + 1
  | Command.JumpBackward => counter - 1
  | _ => counter

/-- Counter update of the backward scan's `match code[instruct_ptr]` arm:
a close bracket increments the depth, an open bracket decrements it. -/
def updB (c : Command) (counter : Nat) : Nat :=
  match c with
  | Command.JumpForward => counter - 1
  | Command.JumpBackward => counter + 1
  | _ => counter

/-- The forward bracket scan inside `step`'s `JumpForward` arm:
`while instruct_ptr < end && bracket_counter > 0 { instruct_ptr += 1;
match code[instruct_ptr] {...} }`.  `none` models the panic of
`code[instruct_ptr]` when the incremented index reaches `code.len()`. -/
def scanFwd (code : List Command) (ptr counter : Nat) : Option Nat :=
  if ptr < code.length ∧ 0 < counter then
    match code[ptr + 1]? with
    | none => none
    | some c => scanFwd code (ptr + 1) (updF c counter)
  else some ptr
termination_by code.length - ptr
decreasing_by simp_wf; omega

/-- The backward bracket scan inside `step`'s `JumpBackward` arm:
`while bracket_counter > 0 { instruct_ptr -= 1; match code[instruct_ptr]
{...} }`.  At `ptr = 0` the usize decrement wraps to `2^64 - 1`, an index
beyond every representable slice length (Rust slices hold at most
`isize::MAX` elements), so the subsequent `code[instruct_ptr]` always
panics: modelled as `none`. -/
def scanBwd (code : List Command) (ptr counter : Nat) : Option Nat :=
  if 0 < counter then
    match ptr with
    | 0 => none
    | p + 1 =>
      match code[p]? with
      | none => none
      | some c => scanBwd code p (updB c counter)
  else some ptr

/-- The only `Err` constructed inside `step`: failure of the stdout
write (`io::stdout().write_all(&[value])?`). -/
inductive StepError where
  | outputError
deriving DecidableEq, Repr

/-- Transition `ProgramState::step`: fetch `code[instruct_ptr]` (panic when out of
range), apply the instruction-specific effect, then advance
`instruct_ptr` by one.  Returns the new state, the remaining input
bytes, and the bytes written to stdout during the step.  `wok` is the
oracle for whether the stdout write of this step succeeds. -/
def step (st : ProgramState) (code : List Command) (input : List Nat) (wok : Bool) :
    Option (Except StepError (ProgramState × List Nat × List Nat)) :=
  match code[st.instruct_ptr]? with
  | none => none
  | some command =>
    let res : Option (Except StepError (ProgramState × List Nat × List Nat)) :=
      match command with
      | Command.IncrementPointer =>
          some (Except.ok ({ st with data_ptr := (st.data_ptr + 1) % USIZE_MOD }, input, []))
      | Command.DecrementPointer =>
          some (Except.ok
            ({ st with data_ptr := (st.data_ptr + (USIZE_MOD - 1)) % USIZE_MOD }, input, []))
      | Command.IncrementValue =>
          match st.memory[st.data_ptr]? with
          | none => none
          | some v =>
              some (Except.ok
                ({ st with memory := st.memory.set st.data_ptr ((v + 1) % 256) }, input, []))
      | Command.DecrementValue =>
          match st.memory[st.data_ptr]? with
          | none => none
          | some v =>
              some (Except.ok
                ({ st with memory := st.memory.set st.data_ptr ((v + 255) % 256) }, input, []))
      | Command.OutputValue =>
          match getValue st with
          | none => none
          | some v =>
              if wok then some (Except.ok (st, input, [v]))
              else some (Except.error StepError.outputError)
      | Command.InputValue =>
          match st.memory[st.data_ptr]? with
          | none => none
          | some _ =>
              match input with
              | [] => some (Except.ok ({ st with memory := st.memory.set st.data_ptr 0 }, [], []))
              | b :: rest =>
                  some (Except.ok ({ st with memory := st.memory.set st.data_ptr b }, rest, []))
      | Command.JumpForward =>
          match getValue st with
          | none => none
          | some v =>
              if v = 0 then
                match scanFwd code st.instruct_ptr 1 with
                | none => none
                | some p => some (Except.ok ({ st with instruct_ptr := p }, input, []))
              else some (Except.ok (st, input, []))
      | Command.JumpBackward =>
          match getValue st with
          | none => none
          | some v =>
              if v ≠ 0 then
                match scanBwd code st.instruct_ptr 1 with
                | none => none
                | some p => some (Except.ok ({ st with instruct_ptr := p }, input, []))
              else some (Except.ok (st, input, []))
      | Command.Unknown => some (Except.ok (st, input, []))
    match res with
    | some (Except.ok (st', input', out)) =>
        some (Except.ok ({ st' with instruct_ptr := st'.instruct_ptr + 1 }, input', out))
    | other => other

/-- Outcome of a run of the driver loop. -/
inductive RunResult where
  /-- The loop exited normally: `instruct_ptr` reached the sequence length. -/
  | ok (st : ProgramState) (input out trace : List Nat)
  /-- A step returned `Err`: the driver aborts; `st` is the state still
  stored in the `Program` (the state from before the failing step). -/
  | err (e : StepError) (st : ProgramState) (input out trace : List Nat)
  /-- A step panicked: the process crashes without a reported result. -/
  | panicked (out trace : List Nat)
  /-- Fuel exhausted before the loop finished. -/
  | fuelOut (st : ProgramState) (input out trace : List Nat)
deriving DecidableEq, Repr

/-- Driver `Program::run`: `while self.state.instruct_ptr < code.len() {
self.state = self.state.step(code)?; }`.  `fuel` bounds the number of
iterations of the unbounded Rust loop; `woks` supplies the per-step
stdout-write oracle; `out` accumulates emitted bytes and `trace` the
index of each executed instruction (observational only). -/
def run (fuel : Nat) (code : List Command) (st : ProgramState) (input : List Nat)
    (woks : List Bool) (out trace : List Nat) : RunResult :=
  if st.instruct_ptr < code.length then
    match fuel with
    | 0 => RunResult.fuelOut st input out trace
    | fuel' + 1 =>
      match step st code input (woks.headD true) with
      | none => RunResult.panicked out (trace ++ [st.instruct_ptr])
      | some (Except.error e) => RunResult.err e st input out trace
      | some (Except.ok (st', input', o)) =>
          run fuel' code st' input' woks.tail (out ++ o) (trace ++ [st.instruct_ptr])
  else RunResult.ok st input out trace

/-! ### Declarative bracket matching

The design document (§4.3) characterizes the matching close bracket of an
open bracket through a nesting-depth counter seeded at 1.  The following
definitions state that characterization declaratively, independently of
the scanning loops, so that the scan loops can be proved against it. -/

/-- Number of open brackets in a command list. -/
def opens (l : List Command) : Nat := l.count Command.JumpForward

/-- Number of close brackets in a command list. -/
def closes (l : List Command) : Nat := l.count Command.JumpBackward

/-- The commands of `code` at positions `i+1 .. k` (empty when `k ≤ i`). -/
def seg (code : List Command) (i k : Nat) : List Command :=
  (code.drop (i + 1)).take (k - i)

/-- The commands of `code` at positions `k .. j-1` (empty when `j ≤ k`). -/
def sufSeg (code : List Command) (k j : Nat) : List Command :=
  (code.drop k).take (j - k)

/-- Depth counter of the forward scan when it stands at position `k`,
having started at the open bracket at position `i`: seeded at 1, plus
the open brackets and minus the close brackets seen at positions
`i+1 .. k`. -/
def cntF (code : List Command) (i k : Nat) : Nat :=
  1 + opens (seg code i k) - closes (seg code i k)

/-- Depth counter of the backward scan when it stands at position `k`,
having started at the close bracket at position `j`: seeded at 1, plus
the close brackets and minus the open brackets seen at positions
`k .. j-1`. -/
def cntB (code : List Command) (k j : Nat) : Nat :=
  1 + closes (sufSeg code k j) - opens (sufSeg code k j)

/-- Position `j` is the matching close bracket of the open bracket at `i`:
the depth counter seeded at 1 just after `i` stays positive strictly
between `i` and `j` and reaches 0 exactly at `j`. -/
def MatchedPair (code : List Command) (i j : Nat) : Prop :=
  code[i]? = some Command.JumpForward ∧
  code[j]? = some Command.JumpBackward ∧
  i < j ∧
  (∀ k, k < j → i < k → closes (seg code i k) ≤ opens (seg code i k)) ∧
  closes (seg code i j) = opens (seg code i j) + 1

instance (code : List Command) (i j : Nat) : Decidable (MatchedPair code i j) := by
  unfold MatchedPair; infer_instance

/-- Every bracket in the sequence has a matching partner. -/
def WellBracketed (code : List Command) : Prop :=
  ∀ i, i < code.length →
    (code[i]? = some Command.JumpForward → ∃ j, j < code.length ∧ MatchedPair code i j) ∧
    (code[i]? = some Command.JumpBackward → ∃ j, j < code.length ∧ MatchedPair code j i)

instance (code : List Command) : Decidable (WellBracketed code) := by
  unfold WellBracketed; infer_instance

/-! ### Helper lemmas about segments and counters -/

theorem seg_self (code : List Command) (i : Nat) : seg code i i = [] := by
  simp [seg]

theorem sufSeg_self (code : List Command) (j : Nat) : sufSeg code j j = [] := by
  simp [sufSeg]

theorem seg_succ (code : List Command) (i k : Nat) (hik : i ≤ k) (c : Command)
    (hc : code[k + 1]? = some c) : seg code i (k + 1) = seg code i k ++ [c] := by
  unfold seg
  rw [show k + 1 - i = (k - i) + 1 from by omega, List.take_succ, List.getElem?_drop,
    show i + 1 + (k - i) = k + 1 from by omega, hc]
  rfl

theorem sufSeg_cons (code : List Command) (k j : Nat) (hkj : k < j) (c : Command)
    (hc : code[k]? = some c) : sufSeg code k j = c :: sufSeg code (k + 1) j := by
  have hlen : k < code.length := (List.getElem?_eq_some.mp hc).1
  unfold sufSeg
  rw [show j - k = (j - (k + 1)) + 1 from by omega, List.drop_eq_getElem_cons hlen]
  have : code[k] = c := by
    have := List.getElem?_eq_getElem hlen
    rw [hc] at this
    exact (Option.some.injEq _ _ ▸ this.symm)
  rw [this]
  rfl

theorem sufSeg_eq_seg (code : List Command) (i j : Nat) :
    sufSeg code (i + 1) j = seg code i (j - 1) := by
  unfold sufSeg seg
  rw [show j - (i + 1) = j - 1 - i from by omega]

theorem seg_split (code : List Command) (i p j : Nat) (hip : i < p) (hpj : p ≤ j) :
    seg code i (j - 1) = seg code i (p - 1) ++ sufSeg code p j := by
  unfold seg sufSeg
  rw [show j - 1 - i = (p - 1 - i) + (j - p) from by omega, List.take_add, List.drop_drop,
    show i + 1 + (p - 1 - i) = p from by omega]

theorem opens_append (l₁ l₂ : List Command) :
    opens (l₁ ++ l₂) = opens l₁ + opens l₂ := by
  simp [opens, List.count_append]

theorem closes_append (l₁ l₂ : List Command) :
    closes (l₁ ++ l₂) = closes l₁ + closes l₂ := by
  simp [closes, List.count_append]

/-! ### The scanning loops find the declaratively matching bracket -/

theorem opens_singleton (c : Command) :
    opens [c] = if c = Command.JumpForward then 1 else 0 := by
  cases c <;> rfl

theorem closes_singleton (c : Command) :
    closes [c] = if c = Command.JumpBackward then 1 else 0 := by
  cases c <;> rfl

theorem scanFwd_step (code : List Command) (ptr counter : Nat) (c : Command)
    (hlen : ptr < code.length) (hpos : 0 < counter) (hc : code[ptr + 1]? = some c) :
    scanFwd code ptr counter = scanFwd code (ptr + 1) (updF c counter) := by
  rw [scanFwd, if_pos ⟨hlen, hpos⟩, hc]

theorem scanFwd_done (code : List Command) (ptr : Nat) :
    scanFwd code ptr 0 = some ptr := by
  rw [scanFwd]
  simp

theorem scanBwd_step (code : List Command) (p counter : Nat) (c : Command)
    (hpos : 0 < counter) (hc : code[p]? = some c) :
    scanBwd code (p + 1) counter = scanBwd code p (updB c counter) := by
  rw [scanBwd.eq_def, if_pos hpos]
  show (match code[p]? with
        | none => none
        | some c => scanBwd code p (updB c counter)) = scanBwd code p (updB c counter)
  rw [hc]

theorem scanBwd_done (code : List Command) (ptr : Nat) :
    scanBwd code ptr 0 = some ptr := by
  rw [scanBwd.eq_def]
  simp

theorem cntF_succ (code : List Command) (i k : Nat) (c : Command) (hik : i ≤ k)
    (hc : code[k + 1]? = some c)
    (hCO : closes (seg code i k) < 1 + opens (seg code i k)) :
    updF c (cntF code i k) = cntF code i (k + 1) := by
  have hseg : seg code i (k + 1) = seg code i k ++ [c] := seg_succ code i k hik c hc
  cases c <;>
    simp only [updF, cntF, hseg, opens_append, closes_append, opens_singleton,
      closes_singleton] <;>
    simp <;> omega

theorem scanFwd_matched_aux (code : List Command) (i j : Nat) (h : MatchedPair code i j) :
    ∀ n k, i ≤ k → k ≤ j → j - k = n → scanFwd code k (cntF code i k) = some j := by
  obtain ⟨hi, hj, hij, hinv, hfin⟩ := h
  have hjlen : j < code.length := (List.getElem?_eq_some.mp hj).1
  intro n
  induction n with
  | zero =>
    intro k hik hkj hn
    have hkeq : k = j := by omega
    subst hkeq
    have hcnt : cntF code i k = 0 := by
      unfold cntF; omega
    rw [hcnt]
    exact scanFwd_done code k
  | succ n ih =>
    intro k hik hkj hn
    have hkj' : k < j := by omega
    have hklen : k < code.length := by omega
    have hCO : closes (seg code i k) < 1 + opens (seg code i k) := by
      rcases Nat.eq_or_lt_of_le hik with hik' | hik'
      · subst hik'; simp [seg_self, opens, closes]
      · have := hinv k hkj' hik'; omega
    have hcntpos : 0 < cntF code i k := by
      unfold cntF; omega
    have hk1len : k + 1 < code.length := by omega
    obtain ⟨c, hc⟩ : ∃ c, code[k + 1]? = some c :=
      ⟨_, List.getElem?_eq_getElem hk1len⟩
    rw [scanFwd_step code k (cntF code i k) c hklen hcntpos hc,
      cntF_succ code i k c hik hc hCO]
    exact ih (k + 1) (by omega) (by omega) (by omega)

theorem scanFwd_of_matched (code : List Command) (i j : Nat) (h : MatchedPair code i j) :
    scanFwd code i 1 = some j := by
  have h1 : cntF code i i = 1 := by
    simp [cntF, seg_self, opens, closes]
  have := scanFwd_matched_aux code i j h (j - i) i (Nat.le_refl i) (Nat.le_of_lt h.2.2.1) rfl
  rwa [h1] at this

theorem matched_balance (code : List Command) (i j : Nat) (h : MatchedPair code i j) :
    closes (seg code i (j - 1)) = opens (seg code i (j - 1)) := by
  obtain ⟨hi, hj, hij, hinv, hfin⟩ := h
  have hj1 : j = (j - 1) + 1 := by omega
  have hc : code[(j - 1) + 1]? = some Command.JumpBackward := by rw [← hj1]; exact hj
  have hseg : seg code i j = seg code i (j - 1) ++ [Command.JumpBackward] := by
    rw [hj1]; exact seg_succ code i (j - 1) (by omega) Command.JumpBackward hc
  rw [hseg, opens_append, closes_append, opens_singleton, closes_singleton] at hfin
  simp at hfin
  omega

theorem matched_sufSeg_zero (code : List Command) (i j : Nat) (h : MatchedPair code i j) :
    opens (sufSeg code i j) = closes (sufSeg code i j) + 1 := by
  have hbal := matched_balance code i j h
  obtain ⟨hi, hj, hij, hinv, hfin⟩ := h
  have hsuf : sufSeg code i j = Command.JumpForward :: sufSeg code (i + 1) j :=
    sufSeg_cons code i j hij Command.JumpForward hi
  rw [hsuf, sufSeg_eq_seg, show (Command.JumpForward :: seg code i (j - 1)) =
    [Command.JumpForward] ++ seg code i (j - 1) from rfl, opens_append, closes_append,
    opens_singleton, closes_singleton]
  simp
  omega

theorem matched_sufSeg_le (code : List Command) (i j p : Nat) (h : MatchedPair code i j)
    (hip : i < p) (hpj : p ≤ j) :
    opens (sufSeg code p j) ≤ closes (sufSeg code p j) := by
  have hbal := matched_balance code i j h
  obtain ⟨hi, hj, hij, hinv, hfin⟩ := h
  have hsplit := seg_split code i p j hip hpj
  rw [hsplit, opens_append, closes_append] at hbal
  have hpre : closes (seg code i (p - 1)) ≤ opens (seg code i (p - 1)) := by
    rcases Nat.eq_or_lt_of_le (show i ≤ p - 1 from by omega) with hp' | hp'
    · rw [← hp', seg_self]; simp [opens, closes]
    · exact hinv (p - 1) (by omega) hp'
  omega

theorem cntB_pred (code : List Command) (i j p : Nat) (c : Command) (h : MatchedPair code i j)
    (hip : i < p) (hpj : p ≤ j) (hc : code[p - 1]? = some c) :
    updB c (cntB code p j) = cntB code (p - 1) j := by
  have hle := matched_sufSeg_le code i j p h hip hpj
  have hp1 : p = (p - 1) + 1 := by omega
  have hsuf : sufSeg code (p - 1) j = [c] ++ sufSeg code p j := by
    have := sufSeg_cons code (p - 1) j (by omega) c hc
    rw [← hp1] at this
    exact this
  cases c <;>
    simp only [updB, cntB, hsuf, opens_append, closes_append, opens_singleton,
      closes_singleton] <;>
    simp <;> omega

theorem scanBwd_matched_aux (code : List Command) (i j : Nat) (h : MatchedPair code i j) :
    ∀ n p, i ≤ p → p ≤ j → p - i = n → scanBwd code p (cntB code p j) = some i := by
  have hjlen : j < code.length := (List.getElem?_eq_some.mp h.2.1).1
  intro n
  induction n with
  | zero =>
    intro p hip hpj hn
    have hpeq : p = i := by omega
    subst hpeq
    have hcnt : cntB code p j = 0 := by
      have := matched_sufSeg_zero code p j h
      unfold cntB
      omega
    rw [hcnt]
    exact scanBwd_done code p
  | succ n ih =>
    intro p hip hpj hn
    have hip' : i < p := by omega
    have hcntpos : 0 < cntB code p j := by
      have := matched_sufSeg_le code i j p h hip' hpj
      unfold cntB
      omega
    have hp1len : p - 1 < code.length := by omega
    obtain ⟨c, hc⟩ : ∃ c, code[p - 1]? = some c :=
      ⟨_, List.getElem?_eq_getElem hp1len⟩
    obtain ⟨q, rfl⟩ : ∃ q, p = q + 1 := ⟨p - 1, by omega⟩
    have hq : q = (q + 1) - 1 := rfl
    rw [scanBwd_step code q (cntB code (q + 1) j) c hcntpos (by rw [hq]; exact hc),
      cntB_pred code i j (q + 1) c h hip' hpj hc]
    exact ih q (by omega) (by omega) (by omega)

theorem scanBwd_of_matched (code : List Command) (i j : Nat) (h : MatchedPair code i j) :
    scanBwd code j 1 = some i := by
  have h1 : cntB code j j = 1 := by
    simp [cntB, sufSeg_self, opens, closes]
  have := scanBwd_matched_aux code i j h (j - i) j (Nat.le_of_lt h.2.2.1) (Nat.le_refl j) rfl
  rwa [h1] at this

theorem set_getElem?_self (l : List Nat) (n v : Nat) (h : l[n]? = some v) :
    l.set n v = l := by
  induction l generalizing n with
  | nil => simp at h
  | cons x t ih =>
    cases n with
    | zero => simp at h; simp [List.set, h]
    | succ m => simp at h; simp [List.set, ih m h]

/-! ### Claims -/

/-- C1: the claim says an unmatched bracket must produce a reported,
well-defined unmatched-bracket error.  The code does not: on the program
`[` the forward scan indexes one past the end of the sequence and the
interpreter panics (out-of-bounds slice index), and on `+]` the backward
scan decrements the instruction pointer past 0 and panics likewise —
modelled as `RunResult.panicked`, i.e. a crash, not a surfaced error. -/
theorem C1_unmatched_bracket_panics :
    run 2 [Command.JumpForward] ProgramState.new [] [] [] [] = RunResult.panicked [] [0] ∧
    run 3 [Command.IncrementValue, Command.JumpBackward] ProgramState.new [] [] [] [] =
      RunResult.panicked [] [0, 1] := by
  constructor
  · simp [run, step, scanFwd, updF, getValue, ProgramState.new, PROGRAM_MEMORY_SIZE]
  · simp [run, step, scanFwd, scanBwd, updF, updB, getValue, ProgramState.new,
      PROGRAM_MEMORY_SIZE, USIZE_MOD]

/-- C2: the claim says a pointer move leaving `[0, memory_size)` must fail
with a pointer-out-of-range error surfaced to the caller.  The code has no
such check: incrementing the pointer from 7 to 8 (= memory size) succeeds
silently, and decrementing it at 0 silently wraps the usize to
`2^64 - 1` — no error is ever produced. -/
theorem C2_pointer_out_of_range_not_detected :
    step { data_ptr := 7, instruct_ptr := 7, memory := List.replicate 8 0 }
        (List.replicate 8 Command.IncrementPointer) [] true =
      some (Except.ok
        ({ data_ptr := 8, instruct_ptr := 8, memory := List.replicate 8 0 }, [], [])) ∧
    step ProgramState.new [Command.DecrementPointer] [] true =
      some (Except.ok
        ({ data_ptr := 2 ^ 64 - 1, instruct_ptr := 1, memory := List.replicate 8 0 }, [], [])) ∧
    ¬ (8 : Nat) < PROGRAM_MEMORY_SIZE := by
  refine ⟨rfl, rfl, by decide⟩

/-- C3: the claim says `0 ≤ data_pointer < memory_size` holds after every
successful step.  It does not: from the initial state, eight successful
move-right steps leave `data_ptr = 8 = PROGRAM_MEMORY_SIZE`, and the run
even terminates successfully in that state. -/
theorem C3_invariant_violated_after_successful_step :
    run 8 (List.replicate 8 Command.IncrementPointer) ProgramState.new [] [] [] [] =
      RunResult.ok { data_ptr := 8, instruct_ptr := 8, memory := List.replicate 8 0 } [] []
        [0, 1, 2, 3, 4, 5, 6, 7] ∧
    ¬ (8 : Nat) < PROGRAM_MEMORY_SIZE := by
  constructor
  · simp [run, step, getValue, ProgramState.new, PROGRAM_MEMORY_SIZE, USIZE_MOD]
  · decide

/-- C4: the preprocessing pass maps each raw byte through the decoder and
discards every unknown result, so the instruction sequence contains only
the eight recognized instruction kinds (never `Unknown`). -/
theorem C4_parse_discards_unknown (bytes : List Nat) (c : Command) (hc : c ∈ parse bytes) :
    c ≠ Command.Unknown := by
  obtain ⟨b, _, hdec⟩ := List.mem_filterMap.mp hc
  intro hcu
  subst hcu
  revert hdec
  cases hdecb : decode b <;> simp

/-- Witness for C4 on a concrete buffer (letter, `+`, newline): the parsed
sequence contains `IncrementValue`, which is not `Unknown`. -/
theorem C4_witness : Command.IncrementValue ≠ Command.Unknown :=
  C4_parse_discards_unknown [97, 43, 10] Command.IncrementValue (by decide)

/-- C7: running the decoded program `+[-].` from the initial state
terminates successfully, emits exactly the single byte 0, and the trace
of executed instruction indices is `[0, 1, 2, 3, 4]` — in particular the
loop body (index 2) executes exactly once. -/
theorem C7_plus_loop_minus_dot :
    run 10 (parse [43, 91, 45, 93, 46]) ProgramState.new [] [] [] [] =
      RunResult.ok { data_ptr := 0, instruct_ptr := 5, memory := List.replicate 8 0 } [] [0]
        [0, 1, 2, 3, 4] ∧
    List.count 2 [0, 1, 2, 3, 4] = 1 := by
  constructor
  · simp [run, step, scanFwd, updF, getValue, parse, decode, ProgramState.new,
      PROGRAM_MEMORY_SIZE]
  · decide

/-- C9: running the decoded program `[]` from the initial all-zero state
terminates immediately and without error: the only executed instruction
is the opening bracket at index 0 (the trace is `[0]`), nothing between
the brackets runs, no output is produced, and the final instruction
pointer equals the sequence length. -/
theorem C9_empty_loop_terminates :
    run 4 [Command.JumpForward, Command.JumpBackward] ProgramState.new [] [] [] [] =
      RunResult.ok { data_ptr := 0, instruct_ptr := 2, memory := List.replicate 8 0 } [] []
        [0] := by
  simp [run, step, scanFwd, updF, getValue, ProgramState.new, PROGRAM_MEMORY_SIZE]

/-- C6: executing an input-cell instruction stores the byte read from the
input source into `memory[data_ptr]` on success; on end-of-stream (or read
failure, which the code ignores identically) it stores 0; in both cases
the step succeeds — the read is never propagated as an execution error. -/
theorem C6_input_stores_byte_or_zero (st : ProgramState) (code : List Command)
    (input : List Nat) (wok : Bool)
    (hcmd : code[st.instruct_ptr]? = some Command.InputValue)
    (hmem : st.data_ptr < st.memory.length) :
    (input = [] → step st code input wok =
      some (Except.ok ({ st with
        memory := st.memory.set st.data_ptr 0
        instruct_ptr := st.instruct_ptr + 1 }, [], []))) ∧
    (∀ b rest, input = b :: rest → step st code input wok =
      some (Except.ok ({ st with
        memory := st.memory.set st.data_ptr b
        instruct_ptr := st.instruct_ptr + 1 }, rest, []))) := by
  obtain ⟨v, hv⟩ : ∃ v, st.memory[st.data_ptr]? = some v :=
    ⟨_, List.getElem?_eq_getElem hmem⟩
  constructor
  · rintro rfl
    simp [step, hcmd, hv]
  · rintro b rest rfl
    simp [step, hcmd, hv]

/-- Witness for C6: on the program `,` with empty input the cell receives
0 and execution continues; with input byte 7 the cell receives 7. -/
theorem C6_witness :
    step ProgramState.new [Command.InputValue] [] true =
      some (Except.ok ({ ProgramState.new with
        memory := ProgramState.new.memory.set 0 0
        instruct_ptr := 1 }, [], [])) ∧
    step ProgramState.new [Command.InputValue] [7] true =
      some (Except.ok ({ ProgramState.new with
        memory := ProgramState.new.memory.set 0 7
        instruct_ptr := 1 }, [7].tail, [])) :=
  ⟨(C6_input_stores_byte_or_zero ProgramState.new [Command.InputValue] [] true
      (by decide) (by decide)).1 rfl,
   (C6_input_stores_byte_or_zero ProgramState.new [Command.InputValue] [7] true
      (by decide) (by decide)).2 7 [] rfl⟩

/-- C8: move-pointer-right followed by move-pointer-left returns
`data_ptr` to its original value, and increment-cell followed by
decrement-cell on the same cell returns the memory to its original
contents (inverse pairs). -/
theorem C8_inverse_pairs (st : ProgramState) (code : List Command) (input : List Nat)
    (wok : Bool) :
    (code[st.instruct_ptr]? = some Command.IncrementPointer →
     code[st.instruct_ptr + 1]? = some Command.DecrementPointer →
     st.data_ptr < USIZE_MOD →
     ∃ st1 st2, step st code input wok = some (Except.ok (st1, input, [])) ∧
       step st1 code input wok = some (Except.ok (st2, input, [])) ∧
       st2.data_ptr = st.data_ptr ∧ st2.memory = st.memory) ∧
    (code[st.instruct_ptr]? = some Command.IncrementValue →
     code[st.instruct_ptr + 1]? = some Command.DecrementValue →
     ∀ v, st.memory[st.data_ptr]? = some v → v < 256 →
     ∃ st1 st2, step st code input wok = some (Except.ok (st1, input, [])) ∧
       step st1 code input wok = some (Except.ok (st2, input, [])) ∧
       st2.memory = st.memory ∧ st2.data_ptr = st.data_ptr) := by
  have hM : (0 : Nat) < USIZE_MOD := by norm_num [USIZE_MOD]
  constructor
  · intro h1 h2 hlt
    have hs1 : step st code input wok = some (Except.ok ({ st with
        data_ptr := (st.data_ptr + 1) % USIZE_MOD
        instruct_ptr := st.instruct_ptr + 1 }, input, [])) := by
      simp [step, h1]
    have hs2 : step { st with
        data_ptr := (st.data_ptr + 1) % USIZE_MOD
        instruct_ptr := st.instruct_ptr + 1 } code input wok = some (Except.ok ({ st with
        data_ptr := ((st.data_ptr + 1) % USIZE_MOD + (USIZE_MOD - 1)) % USIZE_MOD
        instruct_ptr := st.instruct_ptr + 1 + 1 }, input, [])) := by
      simp [step, h2]
    refine ⟨_, _, hs1, hs2, ?_, rfl⟩
    show ((st.data_ptr + 1) % USIZE_MOD + (USIZE_MOD - 1)) % USIZE_MOD = st.data_ptr
    rw [Nat.mod_add_mod, show st.data_ptr + 1 + (USIZE_MOD - 1) = st.data_ptr + USIZE_MOD
      from by omega, Nat.add_mod_right, Nat.mod_eq_of_lt hlt]
  · intro h1 h2 v hv hv256
    have hdlt : st.data_ptr < st.memory.length := (List.getElem?_eq_some.mp hv).1
    have hs1 : step st code input wok = some (Except.ok ({ st with
        memory := st.memory.set st.data_ptr ((v + 1) % 256)
        instruct_ptr := st.instruct_ptr + 1 }, input, [])) := by
      simp [step, h1, hv]
    have hget1 : (st.memory.set st.data_ptr ((v + 1) % 256))[st.data_ptr]? =
        some ((v + 1) % 256) := List.getElem?_set_self hdlt
    have hs2 : step { st with
        memory := st.memory.set st.data_ptr ((v + 1) % 256)
        instruct_ptr := st.instruct_ptr + 1 } code input wok = some (Except.ok ({ st with
        memory := (st.memory.set st.data_ptr ((v + 1) % 256)).set st.data_ptr
          (((v + 1) % 256 + 255) % 256)
        instruct_ptr := st.instruct_ptr + 1 + 1 }, input, [])) := by
      simp [step, h2, hget1]
    refine ⟨_, _, hs1, hs2, ?_, rfl⟩
    show (st.memory.set st.data_ptr ((v + 1) % 256)).set st.data_ptr
      (((v + 1) % 256 + 255) % 256) = st.memory
    rw [List.set_set, Nat.mod_add_mod, show v + 1 + 255 = v + 256 from by omega,
      Nat.add_mod_right, Nat.mod_eq_of_lt hv256]
    exact set_getElem?_self st.memory st.data_ptr v hv

/-- Witness for C8: the inverse pairs on the concrete programs `><` and
`+-` from the initial state. -/
theorem C8_witness :
    (∃ st1 st2, step ProgramState.new [Command.IncrementPointer, Command.DecrementPointer]
        [] true = some (Except.ok (st1, [], [])) ∧
      step st1 [Command.IncrementPointer, Command.DecrementPointer] [] true =
        some (Except.ok (st2, [], [])) ∧
      st2.data_ptr = ProgramState.new.data_ptr ∧ st2.memory = ProgramState.new.memory) ∧
    (∃ st1 st2, step ProgramState.new [Command.IncrementValue, Command.DecrementValue]
        [] true = some (Except.ok (st1, [], [])) ∧
      step st1 [Command.IncrementValue, Command.DecrementValue] [] true =
        some (Except.ok (st2, [], [])) ∧
      st2.memory = ProgramState.new.memory ∧ st2.data_ptr = ProgramState.new.data_ptr) :=
  ⟨(C8_inverse_pairs ProgramState.new
      [Command.IncrementPointer, Command.DecrementPointer] [] true).1
        (by decide) (by decide) (by norm_num [ProgramState.new, USIZE_MOD]),
   (C8_inverse_pairs ProgramState.new
      [Command.IncrementValue, Command.DecrementValue] [] true).2
        (by decide) (by decide) 0 (by decide) (by decide)⟩

/-- C10: when a step returns a failure (`Err`), the driver aborts
immediately and its stored execution state is exactly the state from
before the failing step — the failed step has no effect on the stored
state, input, or output. -/
theorem C10_driver_aborts_with_pre_step_state (fuel : Nat) (code : List Command)
    (st : ProgramState) (input : List Nat) (woks : List Bool) (out trace : List Nat)
    (e : StepError)
    (hlt : st.instruct_ptr < code.length)
    (hstep : step st code input (woks.headD true) = some (Except.error e)) :
    run (fuel + 1) code st input woks out trace = RunResult.err e st input out trace := by
  rw [run, if_pos hlt]
  show (match step st code input (woks.headD true) with
        | none => RunResult.panicked out (trace ++ [st.instruct_ptr])
        | some (Except.error e) => RunResult.err e st input out trace
        | some (Except.ok (st', input', o)) =>
            run fuel code st' input' woks.tail (out ++ o) (trace ++ [st.instruct_ptr])) =
      RunResult.err e st input out trace
  rw [hstep]

/-- Witness for C10: on the program `.` with a failing stdout write, the
run aborts with the output error and the stored state is the initial
state, untouched. -/
theorem C10_witness :
    run 1 [Command.OutputValue] ProgramState.new [] [false] [] [] =
      RunResult.err StepError.outputError ProgramState.new [] [] [] :=
  C10_driver_aborts_with_pre_step_state 0 [Command.OutputValue] ProgramState.new []
    [false] [] [] StepError.outputError (by decide) (by rfl)

/-- C5: for a well-bracketed instruction sequence, every successful step
advances the instruction pointer by exactly one past the
instruction-specific effect: a taken jump-forward-if-zero ends the step
with the instruction pointer immediately after the matching closing
bracket, a taken jump-backward-if-nonzero ends immediately after the
matching opening bracket (so the matching bracket itself is never
re-executed), and every other instruction — including a non-taken
jump — ends with the instruction pointer at its successor. -/
theorem C5_instruction_pointer_advance (code : List Command) (st st' : ProgramState)
    (input input' out : List Nat) (wok : Bool)
    (hwb : WellBracketed code)
    (hstep : step st code input wok = some (Except.ok (st', input', out))) :
    (getValue st = some 0 → code[st.instruct_ptr]? = some Command.JumpForward →
       ∃ j, MatchedPair code st.instruct_ptr j ∧ st'.instruct_ptr = j + 1) ∧
    (∀ v, v ≠ 0 → getValue st = some v →
       code[st.instruct_ptr]? = some Command.JumpBackward →
       ∃ i, MatchedPair code i st.instruct_ptr ∧ st'.instruct_ptr = i + 1) ∧
    (∀ c, code[st.instruct_ptr]? = some c → c ≠ Command.JumpForward →
       c ≠ Command.JumpBackward → st'.instruct_ptr = st.instruct_ptr + 1) ∧
    (∀ v, v ≠ 0 → getValue st = some v →
       code[st.instruct_ptr]? = some Command.JumpForward →
       st'.instruct_ptr = st.instruct_ptr + 1) ∧
    (getValue st = some 0 → code[st.instruct_ptr]? = some Command.JumpBackward →
       st'.instruct_ptr = st.instruct_ptr + 1) := by
  refine ⟨?_, ?_, ?_, ?_, ?_⟩
  · intro hval hcmd
    have hiplen : st.instruct_ptr < code.length := (List.getElem?_eq_some.mp hcmd).1
    obtain ⟨j, hjlen, hmp⟩ := (hwb st.instruct_ptr hiplen).1 hcmd
    have hscan := scanFwd_of_matched code st.instruct_ptr j hmp
    simp [step, hcmd, hval, hscan] at hstep
    exact ⟨j, hmp, by rw [← hstep.1]⟩
  · intro v hv hval hcmd
    have hiplen : st.instruct_ptr < code.length := (List.getElem?_eq_some.mp hcmd).1
    obtain ⟨i, hilen, hmp⟩ := (hwb st.instruct_ptr hiplen).2 hcmd
    have hscan := scanBwd_of_matched code i st.instruct_ptr hmp
    simp [step, hcmd, hval, hv, hscan] at hstep
    exact ⟨i, hmp, by rw [← hstep.1]⟩
  · intro c hcmd hne1 hne2
    cases c with
    | Unknown =>
      simp [step, hcmd] at hstep
      rw [← hstep.1]
    | IncrementPointer =>
      simp [step, hcmd] at hstep
      rw [← hstep.1]
    | DecrementPointer =>
      simp [step, hcmd] at hstep
      rw [← hstep.1]
    | IncrementValue =>
      cases hm : st.memory[st.data_ptr]? with
      | none => simp [step, hcmd, hm] at hstep
      | some v =>
        simp [step, hcmd, hm] at hstep
        rw [← hstep.1]
    | DecrementValue =>
      cases hm : st.memory[st.data_ptr]? with
      | none => simp [step, hcmd, hm] at hstep
      | some v =>
        simp [step, hcmd, hm] at hstep
        rw [← hstep.1]
    | OutputValue =>
      cases hm : getValue st with
      | none => simp [step, hcmd, hm] at hstep
      | some v =>
        cases wok with
        | false => simp [step, hcmd, hm] at hstep
        | true =>
          simp [step, hcmd, hm] at hstep
          rw [← hstep.1]
    | InputValue =>
      cases hm : st.memory[st.data_ptr]? with
      | none => simp [step, hcmd, hm] at hstep
      | some v =>
        cases input with
        | nil =>
          simp [step, hcmd, hm] at hstep
          rw [← hstep.1]
        | cons b rest =>
          simp [step, hcmd, hm] at hstep
          rw [← hstep.1]
    | JumpForward => exact absurd rfl hne1
    | JumpBackward => exact absurd rfl hne2
  · intro v hv hval hcmd
    simp [step, hcmd, hval, hv] at hstep
    rw [← hstep.1]
  · intro hval hcmd
    simp [step, hcmd, hval] at hstep
    rw [← hstep.1]

/-- Witness for C5 on the concrete well-bracketed program `[]` from the
initial all-zero state: the taken forward jump lands one past the
matching close bracket at index 1. -/
theorem C5_witness :
    ∃ j, MatchedPair [Command.JumpForward, Command.JumpBackward] 0 j ∧ (2 : Nat) = j + 1 :=
  (C5_instruction_pointer_advance [Command.JumpForward, Command.JumpBackward]
      ProgramState.new { data_ptr := 0, instruct_ptr := 2, memory := List.replicate 8 0 }
      [] [] [] true (by decide)
      (by simp [step, scanFwd, updF, getValue, ProgramState.new, PROGRAM_MEMORY_SIZE])).1
    (by rfl) (by rfl)
